import Mathlib

/-!
Verification development for the Dejavas backend's minimal
reflection-driven web framework.  The embedding covers:

* `pydantic/__init__.py` — the schema binder (`BaseModel.__init__`,
  `BaseModel.parse_obj`, `BaseModel.dict`), modelled as the type-directed
  functions `construct` / `constructField` and `dictVal` / `dictFields`
  over a JSON-like `Value` type;
* `fastapi/__init__.py` — the path pattern compiler (`_compile_path`),
  the router and parameter-binding dispatcher (`_call`), and the
  development server's response construction (`Handler._dispatch`).

Conventions of the embedding:

* A Python value is a `Value`; Python `None` is `Value.vnone`.  One
  constructor `Value.vnone` stands both for an explicit `None` and for a
  key missing from a dict, matching `dict.get`'s behaviour in the source.
* A declared model class is a `Schema`: its `get_type_hints` items in
  declaration order, each field tagged `scalar` (any non-model,
  non-`List[Model]` annotation, stored with no coercion),
  `nested` (a `BaseModel` subclass) or `seqOf` (`List[Model]`).
* Python dicts are association lists with string keys; a dict produced
  by Python has distinct keys, so lookups take the first occurrence.
* Code that can raise returns an `Option` (`none` = an exception
  propagates).
-/

namespace Dejavas

/-- Field tags of a declared model class, as discriminated by
`BaseModel.__init__`: `get_origin(typ) is list` with a `BaseModel`
element type gives `seqOf`, a `BaseModel` subclass gives `nested`, and
everything else (including `List` of non-models, `Optional[...]`,
unsubscripted builtins) is stored unchanged, tagged `scalar`. -/
inductive FieldType where
  | scalar : FieldType
  | nested : List (String × FieldType) → FieldType
  | seqOf : List (String × FieldType) → FieldType

/-- A model schema: the `get_type_hints` mapping of a declared class,
in declaration order. -/
abbrev Schema := List (String × FieldType)

/-- Loosely-typed runtime values.  `vmap` is a plain dict, `vinst` a
constructed `BaseModel` instance (its attribute dict, in schema order);
`BaseModel.dict` distinguishes them with `isinstance` checks. -/
inductive Value where
  | vnone : Value
  | vstr : String → Value
  | vint : Int → Value
  | vlist : List Value → Value
  | vmap : List (String × Value) → Value
  | vinst : List (String × Value) → Value

/-- First-occurrence lookup in an association list, i.e. `d[k]` /
`k in d` on a Python dict with distinct keys. -/
def lookupKV {α : Type} : List (String × α) → String → Option α
  | [], _ => none
  | (f, v) :: rest, k => if f = k then some v else lookupKV rest k

/-- Embedding of `data.get(field)` in `BaseModel.__init__`: a missing key yields
`None`. -/
def mget (m : List (String × Value)) (k : String) : Value :=
  match lookupKV m k with
  | some v => v
  | none => Value.vnone

/-- Elementwise construction of `[inner.parse_obj(v) for v in value]`:
each element must be a dict (`cls(**obj)` raises for any non-mapping),
and is constructed with the continuation `cont` (which will be
`construct u`). -/
def constructElems (cont : List (String × Value) → Option (List (String × Value))) :
    List Value → Option (List Value)
  | [] => some []
  | Value.vmap m :: rest =>
    match cont m, constructElems cont rest with
    | some fs, some vs => some (Value.vinst fs :: vs)
    | _, _ => none
  | _ :: _ => none

mutual

/-- Embedding of `BaseModel.__init__` (alias `parse_obj`): iterate the schema in
declaration order; each field's value is `data.get(field)` transformed
by `constructField`.  Keys of `m` outside the schema are never read. -/
def construct : Schema → List (String × Value) → Option (List (String × Value))
  | [], _ => some []
  | (f, t) :: rest, m =>
    match constructField t (mget m f), construct rest m with
    | some v, some fs => some ((f, v) :: fs)
    | _, _ => none

/-- One field of `BaseModel.__init__`: `None` (missing or explicit) is
stored unchanged; a `List[Model]` field iterates its value building
elements with `parse_obj` (a non-empty string iterates characters and a
non-empty dict iterates keys, and `cls(**obj)` then raises on those
strings; an empty string or dict iterates to `[]`; any non-iterable
raises); a `Model` field is built with `parse_obj`, which raises unless
the value is a mapping; a scalar field is stored unchanged. -/
def constructField : FieldType → Value → Option Value
  | _, Value.vnone => some Value.vnone
  | FieldType.scalar, v => some v
  | FieldType.nested u, Value.vmap m => (construct u m).map Value.vinst
  | FieldType.nested _, _ => none
  | FieldType.seqOf u, Value.vlist xs => (constructElems (construct u) xs).map Value.vlist
  | FieldType.seqOf _, Value.vstr s => if s.isEmpty then some (Value.vlist []) else none
  | FieldType.seqOf _, Value.vmap m => if m.isEmpty then some (Value.vlist []) else none
  | FieldType.seqOf _, _ => none

end

mutual

/-- Serialization of one attribute value in `BaseModel.dict`: a list is
rewritten elementwise (`v.dict() if isinstance(v, BaseModel) else v`),
an instance is serialized recursively, anything else passes through. -/
def dictVal : Value → Value
  | Value.vlist xs => Value.vlist (dictList xs)
  | Value.vinst fs => Value.vmap (dictFields fs)
  | v => v

/-- Embedding of `BaseModel.dict`: walk the instance fields (schema order) and
serialize each value. -/
def dictFields : List (String × Value) → List (String × Value)
  | [] => []
  | (f, v) :: rest => (f, dictVal v) :: dictFields rest

/-- One element of a stored list in `BaseModel.dict`: instances are
serialized, everything else passes through unchanged (one level only). -/
def dictElem : Value → Value
  | Value.vinst fs => Value.vmap (dictFields fs)
  | v => v

/-- Elementwise serialization of a stored list in `BaseModel.dict`. -/
def dictList : List Value → List Value
  | [] => []
  | x :: rest => dictElem x :: dictList rest

end

/-- Is this value a `BaseModel` instance? (`isinstance(v, BaseModel)`.) -/
def isInst : Value → Bool
  | Value.vinst _ => true
  | _ => false

/-- Values that `BaseModel.dict` passes through unchanged: not an
instance, and, if a list, containing no instance elements.  Every value
decoded from a JSON body satisfies this. -/
def plainValue : Value → Bool
  | Value.vinst _ => false
  | Value.vlist xs => xs.all (fun x => !isInst x)
  | _ => true

/-- List part of `conforms`: every element a conforming dict. -/
def elemsConform (cont : List (String × Value) → Bool) : List Value → Bool
  | [] => true
  | Value.vmap m :: rest => cont m && elemsConform cont rest
  | _ :: _ => false

mutual

/-- Conformance of `m` to the shape of schema `s`: the keys of `m` are exactly
the schema's field names, in schema order and without duplicates, and
each value conforms to its field's tag.  (Schemas coming from
`get_type_hints` always have distinct field names; the embedding states
that explicitly.) -/
def conforms : Schema → List (String × Value) → Bool
  | [], m => m.isEmpty
  | (f, t) :: rest, (g, v) :: m2 =>
    f == g && !(decide (f ∈ rest.map Prod.fst)) && conformsField t v && conforms rest m2
  | _ :: _, [] => false

/-- Value conformance per field tag: `None` always conforms (it round
trips as the absent marker); a scalar field needs a `plainValue`; a
nested field a conforming dict; a sequence field a list of conforming
dicts. -/
def conformsField : FieldType → Value → Bool
  | _, Value.vnone => true
  | FieldType.scalar, v => plainValue v
  | FieldType.nested u, Value.vmap m => conforms u m
  | FieldType.nested _, _ => false
  | FieldType.seqOf u, Value.vlist xs => elemsConform (conforms u) xs
  | FieldType.seqOf _, _ => false

end

/-- List part of `shapeOk`: every element a dict whose construction
succeeds. -/
def elemsShapeOk (cont : List (String × Value) → Bool) : List Value → Bool
  | [] => true
  | Value.vmap m :: rest => cont m && elemsShapeOk cont rest
  | _ :: _ => false

mutual

/-- Exact success condition of `construct`: scalar and missing fields
are never validated; a present nested-model field must be a mapping
whose own model fields are recursively shape-compatible; a present
sequence-of-model field must be a list of such mappings (or an empty
string or empty dict, which iterate to `[]`). -/
def shapeOk : Schema → List (String × Value) → Bool
  | [], _ => true
  | (f, t) :: rest, m => shapeOkField t (mget m f) && shapeOk rest m

/-- Field part of `shapeOk`. -/
def shapeOkField : FieldType → Value → Bool
  | _, Value.vnone => true
  | FieldType.scalar, _ => true
  | FieldType.nested u, Value.vmap m => shapeOk u m
  | FieldType.nested _, _ => false
  | FieldType.seqOf u, Value.vlist xs => elemsShapeOk (shapeOk u) xs
  | FieldType.seqOf _, Value.vstr s => s.isEmpty
  | FieldType.seqOf _, Value.vmap m => m.isEmpty
  | FieldType.seqOf _, _ => false

end

/-! ## Path pattern compiler (`FastAPI._compile_path`)

`_compile_path` rewrites the template with
`re.sub(r"{([^}]+)}", r"(?P<\1>[^/]+)", path.rstrip("/"))` and then
compiles `^regex/?$`.  The embedding represents the compiled pattern as
a token list — literal characters and named captures — with matching
semantics mirroring the Python regex engine: a capture matches one or
more non-`/` characters, greedily with backtracking; the whole
normalized path must be consumed, allowing one optional trailing `/`;
and, as with Python's `$`, a single final newline may remain
unconsumed.  Template literal characters are matched verbatim (the
source interpolates them into the regex unescaped; every template in
this repository is free of regex metacharacters). -/

/-- One token of a compiled pattern. -/
inductive Token where
  | lit : Char → Token
  | param : String → Token
deriving Repr, DecidableEq

/-- The leftmost match of `[^}]+}` at the current position: the capture
name (at least one non-`\x7d` character) and the rest after the closing
brace; `none` when the brace at the current position opens no
placeholder. -/
def takeName (l : List Char) : Option (String × List Char) :=
  let pre := l.takeWhile (fun c => c != '\x7d')
  let post := l.dropWhile (fun c => c != '\x7d')
  if pre.isEmpty then none
  else
    match post with
    | [] => none
    | _ :: rest => some (String.mk pre, rest)

/-- Left-to-right scan of `re.sub(r"{([^}]+)}", ...)`: each placeholder
becomes a `param` token, every other character a `lit` token.  The fuel
argument (initialized to the list length, which always suffices) only
serves totality. -/
def tokenizeAux : Nat → List Char → List Token
  | 0, _ => []
  | _, [] => []
  | fuel + 1, c :: rest =>
    if c = '\x7b' then
      match takeName rest with
      | some nr => Token.param nr.1 :: tokenizeAux fuel nr.2
      | none => Token.lit c :: tokenizeAux fuel rest
    else Token.lit c :: tokenizeAux fuel rest

/-- Tokenization of a template into a compiled pattern. -/
def tokenize (l : List Char) : List Token := tokenizeAux l.length l

/-- Embedding of `str.rstrip("/")`: remove every trailing `/`. -/
def rstripSlashes (l : List Char) : List Char :=
  (l.reverse.dropWhile (fun c => c = '/')).reverse

/-- Embedding of `FastAPI._compile_path`: strip all trailing separators from the
template, then compile placeholders into captures. -/
def compilePath (tpl : String) : List Token :=
  tokenize (rstripSlashes tpl.data)

/-- Backtracking search for a capture `[^/]+`, greedily: try the capture
lengths `k, k-1, ..., 1` in that order, continuing with `cont` (the
match of the remaining tokens) after the captured prefix.  `k` starts at
the length of the longest non-`/` run, so every tried prefix is free of
separators. -/
def tryAll (cont : List Char → Option (List (String × String)))
    (n : String) (xs : List Char) : Nat → Option (List (String × String))
  | 0 => none
  | k + 1 =>
    match cont (xs.drop (k + 1)) with
    | some caps => some ((n, String.mk (xs.take (k + 1))) :: caps)
    | none => tryAll cont n xs k

/-- Anchored match of a compiled pattern against a path, returning the
captures in template order (`match.groupdict()` with groups in creation
order).  The empty-token case is the tail `/?$` of the compiled regex:
an optional `/`, then `$`, which Python matches at the end or just
before one final newline. -/
def mmatch : List Token → List Char → Option (List (String × String))
  | [], xs =>
    if xs = [] ∨ xs = ['\n'] ∨ xs = ['/'] ∨ xs = ['/', '\n'] then some [] else none
  | Token.lit c :: ts, xs =>
    match xs with
    | [] => none
    | x :: rest => if x = c then mmatch ts rest else none
  | Token.param n :: ts, xs =>
    tryAll (mmatch ts) n xs (xs.takeWhile (fun c => c != '/')).length

/-! ## Router and parameter-binding dispatcher (`FastAPI._call`)

Route registration (`_add_route`) appends `(pattern, func)` to the
per-verb list, so list order is registration order.  `_call` normalizes
the path with `rstrip("/")`, scans the verb's entries in order, and
processes the first entry whose pattern matches: each declared handler
parameter is bound from the captured path parameters first, else — when
a payload is present and the parameter has a (non-empty) annotation —
from the payload, `parse_obj`-constructed for `BaseModel` annotations
and raw otherwise; an unannotated parameter is left unbound.  Handlers
are external collaborators: the embedding keeps their reflected
signature and an opaque body that may raise an `HTTPException`. -/

/-- Embedding of `HTTPException(status_code, detail)` — the structured error. -/
structure HTTPError where
  status : Nat
  detail : String
deriving Repr, DecidableEq

/-- Declared type tag of one handler parameter, from
`inspect.signature`: no annotation (`inspect._empty`), a `BaseModel`
subclass, or any other annotation. -/
inductive Ann where
  | empty : Ann
  | model : Schema → Ann
  | plain : Ann

/-- One declared handler parameter. -/
structure HParam where
  name : String
  ann : Ann

/-- A handler: its reflected signature and its body.  Bodies live in
`main.py` and call external collaborators (simulators, integrations);
dispatch only observes them as a function from bound keyword arguments
to a result or a raised `HTTPException`. -/
structure Handler where
  sig : List HParam
  run : List (String × Value) → Except HTTPError Value

/-- One registered route: compiled pattern plus handler, created at
registration. -/
structure RouteEntry where
  pattern : List Token
  handler : Handler

/-- The application's route registry: `self._routes`, one append-only
list per supported verb. -/
structure App where
  getRoutes : List RouteEntry
  postRoutes : List RouteEntry

/-- Embedding of `self._routes.get(method, [])`: unsupported verbs have no entries. -/
def routesFor (a : App) (method : String) : List RouteEntry :=
  if method = "GET" then a.getRoutes
  else if method = "POST" then a.postRoutes
  else []

/-- First-match scan of the route list against the normalized path, in
registration order. -/
def resolveRoutes : List RouteEntry → List Char →
    Option (RouteEntry × List (String × String))
  | [], _ => none
  | r :: rest, p =>
    match mmatch r.pattern p with
    | some caps => some (r, caps)
    | none => resolveRoutes rest p

/-- Result of binding one declared parameter in `_call`'s loop. -/
inductive BindR where
  | bound : Value → BindR
  | unbound : BindR
  | raises : BindR

/-- One iteration of `_call`'s binding loop: a captured path parameter
of the same name wins unconditionally; otherwise, with a payload
present, a `BaseModel` annotation binds `ann.parse_obj(json)` (raising
unless the payload is a mapping that constructs), any other non-empty
annotation binds the raw payload unchanged, and a parameter without
annotation is skipped. -/
def bindParam (caps : List (String × String)) (json : Option Value) (p : HParam) : BindR :=
  match lookupKV caps p.name with
  | some s => BindR.bound (Value.vstr s)
  | none =>
    match json, p.ann with
    | some j, Ann.model u =>
      match j with
      | Value.vmap m =>
        match construct u m with
        | some fs => BindR.bound (Value.vinst fs)
        | none => BindR.raises
      | _ => BindR.raises
    | some j, Ann.plain => BindR.bound j
    | some _, Ann.empty => BindR.unbound
    | none, _ => BindR.unbound

/-- The whole binding loop: the `kwargs` dict in signature order
(`none` when some binding raises). -/
def buildKwargs (sig : List HParam) (caps : List (String × String))
    (json : Option Value) : Option (List (String × Value)) :=
  match sig with
  | [] => some []
  | p :: rest =>
    match bindParam caps json p, buildKwargs rest caps json with
    | BindR.raises, _ => none
    | _, none => none
    | BindR.unbound, some kw => some kw
    | BindR.bound v, some kw => some ((p.name, v) :: kw)

/-- Outcome of `FastAPI._call`: a handler result, a raised
`HTTPException`, or any other exception (binding failure or missing
required argument), which propagates uncaught. -/
inductive CallOutcome where
  | ok : Value → CallOutcome
  | herr : HTTPError → CallOutcome
  | pyerr : CallOutcome

/-- Embedding of `FastAPI._call`: normalize the path, resolve the first matching
route for the verb, bind the handler's parameters and invoke it.  No
match raises `HTTPException(404, "Session not found")`.  Invoking with
a required parameter unbound raises a `TypeError` (the handlers of this
repository declare no defaults), modelled as `pyerr`. -/
def call (a : App) (method : String) (path : String) (json : Option Value) : CallOutcome :=
  let p := rstripSlashes path.data
  match resolveRoutes (routesFor a method) p with
  | none => CallOutcome.herr ⟨404, "Session not found"⟩
  | some (r, caps) =>
    match buildKwargs r.handler.sig caps json with
    | none => CallOutcome.pyerr
    | some kwargs =>
      if r.handler.sig.all (fun q => (lookupKV kwargs q.name).isSome) then
        match r.handler.run kwargs with
        | Except.ok v => CallOutcome.ok v
        | Except.error e => CallOutcome.herr e
      else CallOutcome.pyerr

/-! ## Minimal development server (`Handler._dispatch`)

The server decodes the body into a payload (`json.loads`; body decoding
is outside this model — the dispatch is parametrized by the decoded
payload), invokes `_call`, and writes a response: on success, the
result — serialized through `dict()` when it is a model instance — is
JSON-encoded and sent with status 200; on `HTTPException`, the body is
`{"detail": <message>}` with the error's status.  Either way the
`Content-Length` header is `str(len(content))` for the exact encoded
body.  Every other exception propagates and terminates the exchange
(no response).  `json.dumps` uses its defaults: `", "` / `": "`
separators and `ensure_ascii=True`, so the encoded body is pure ASCII
and its UTF-8 byte length equals its character count. -/

/-- One hexadecimal digit, lowercase, as `json.dumps` prints them. -/
def hexDigit (n : Nat) : Char :=
  if n < 10 then Char.ofNat ('0'.toNat + n) else Char.ofNat ('a'.toNat + (n - 10))

/-- A `\uXXXX` escape for one UTF-16 code unit. -/
def uEsc (n : Nat) : String :=
  String.mk ['\\', 'u', hexDigit (n / 4096 % 16), hexDigit (n / 256 % 16),
    hexDigit (n / 16 % 16), hexDigit (n % 16)]

/-- Embedding of the `json.dumps` escaping of one character (`ensure_ascii=True`):
short escapes for the two specials and the named controls, `\uXXXX`
for other controls and all non-ASCII (surrogate pairs above U+FFFF),
everything else verbatim. -/
def escChar (c : Char) : String :=
  if c = '"' then "\\\""
  else if c = '\\' then "\\\\"
  else if c = '\n' then "\\n"
  else if c = '\t' then "\\t"
  else if c = '\r' then "\\r"
  else if c = '\x08' then "\\b"
  else if c = '\x0c' then "\\f"
  else if c.toNat < 32 then uEsc c.toNat
  else if c.toNat < 127 then String.mk [c]
  else if c.toNat < 65536 then uEsc c.toNat
  else uEsc (55296 + (c.toNat - 65536) / 1024) ++ uEsc (56320 + (c.toNat - 65536) % 1024)

/-- Embedding of `json.dumps` on a string. -/
def dumpStr (s : String) : String :=
  "\"" ++ String.join (s.data.map escChar) ++ "\""

/-- Comma-join of already-encoded items, with `json.dumps`'s default
`", "` separator. -/
def joinComma (parts : List String) : String :=
  String.intercalate ", " parts

mutual

/-- Embedding of `json.dumps` on a value (`none` when the value is not serializable,
i.e. contains a model instance — `json.dumps` raises `TypeError`). -/
def dumpVal : Value → Option String
  | Value.vnone => some "null"
  | Value.vstr s => some (dumpStr s)
  | Value.vint n => some (toString n)
  | Value.vlist xs => (dumpElems xs).map (fun parts => "[" ++ joinComma parts ++ "]")
  | Value.vmap m => (dumpPairs m).map (fun parts => "\x7b" ++ joinComma parts ++ "\x7d")
  | Value.vinst _ => none

/-- Encoded elements of a JSON array. -/
def dumpElems : List Value → Option (List String)
  | [] => some []
  | x :: rest =>
    match dumpVal x, dumpElems rest with
    | some s, some ss => some (s :: ss)
    | _, _ => none

/-- Encoded `"key": value` entries of a JSON object. -/
def dumpPairs : List (String × Value) → Option (List String)
  | [] => some []
  | (k, v) :: rest =>
    match dumpVal v, dumpPairs rest with
    | some s, some ss => some ((dumpStr k ++ ": " ++ s) :: ss)
    | _, _ => none

end

/-- An HTTP response as the server writes it: status line, content type
header, `Content-Length` header, and the body (whose wire form is the
UTF-8 encoding of `body`). -/
structure Response where
  status : Nat
  contentType : String
  contentLength : Nat
  body : String

/-- Embedding of the `hasattr(result, "dict")` step: serialize a model instance through
`dict()`, pass everything else to `json.dumps` unchanged. -/
def serializeResult (v : Value) : Value :=
  match v with
  | Value.vinst fs => Value.vmap (dictFields fs)
  | v => v

/-- Response construction of `Handler._dispatch` from the dispatch
outcome: 200 with the serialized result, or the `HTTPException`'s
status with a `{"detail": <message>}` body; `Content-Length` is the
byte length of the exact encoded body.  Any non-`HTTPException`
exception yields no response (`none`): the exchange dies. -/
def serverRespond (out : CallOutcome) : Option Response :=
  match out with
  | CallOutcome.ok v =>
    (dumpVal (serializeResult v)).map
      (fun s => ⟨200, "application/json", s.utf8ByteSize, s⟩)
  | CallOutcome.herr e =>
    (dumpVal (Value.vmap [("detail", Value.vstr e.detail)])).map
      (fun s => ⟨e.status, "application/json", s.utf8ByteSize, s⟩)
  | CallOutcome.pyerr => none

/-- Embedding of `Handler._dispatch` end to end, parametrized by the already-decoded
payload. -/
def serverDispatch (a : App) (method : String) (path : String)
    (payload : Option Value) : Option Response :=
  serverRespond (call a method path payload)

/-! ## Model schemas and routes declared in `main.py`

`get_type_hints` returns the annotations in declaration order.  A
`List[str]` field (e.g. `top_objections`) and an `Optional[...]` or
`Dict`-typed field are `scalar`: `BaseModel.__init__` stores them
unchanged. -/

/-- Schema of `class Feature(BaseModel)`. -/
def featureSchema : Schema :=
  [("title", FieldType.scalar), ("description", FieldType.scalar)]

/-- Schema of `class Brief(BaseModel)`. -/
def briefSchema : Schema :=
  [("product_name", FieldType.scalar), ("features", FieldType.seqOf featureSchema)]

/-- Schema of `class AgentConfig(BaseModel)`. -/
def agentConfigSchema : Schema :=
  [("customer_percentage", FieldType.scalar), ("competitor_percentage", FieldType.scalar),
   ("influencer_percentage", FieldType.scalar), ("internal_team_percentage", FieldType.scalar)]

/-- Schema of `class SimulationReport(BaseModel)`. -/
def simulationReportSchema : Schema :=
  [("session_id", FieldType.scalar), ("adoption_score", FieldType.scalar),
   ("top_objections", FieldType.scalar), ("must_fix", FieldType.scalar)]

/-- Schema of `class ContentAnalysisRequest(BaseModel)`. -/
def contentAnalysisRequestSchema : Schema :=
  [("url", FieldType.scalar), ("text", FieldType.scalar), ("integration_type", FieldType.scalar)]

/-- Schema of `class IntegrationConfig(BaseModel)`. -/
def integrationConfigSchema : Schema :=
  [("integration_type", FieldType.scalar), ("webhook_url", FieldType.scalar),
   ("settings", FieldType.scalar)]

/-- A handler whose body is irrelevant to dispatch: the routed
endpoints' bodies call external collaborators (simulators,
integrations) that are outside this core; dispatch only observes their
reflected signatures. -/
def stubHandler (sig : List HParam) : Handler :=
  ⟨sig, fun _ => Except.ok Value.vnone⟩

/-- Handler `read_root`: `GET /`, no parameters. -/
def readRoot : Handler :=
  ⟨[], fun _ => Except.ok (Value.vmap [("message", Value.vstr "Welcome to Dejavas API")])⟩

/-- Handler `upload_brief(brief: Brief)`. -/
def uploadBrief : Handler :=
  stubHandler [⟨"brief", Ann.model briefSchema⟩]

/-- Handler `configure_agents(session_id: str, config: AgentConfig)`: with the
initial empty `simulations` store every session id is unknown, so the
body raises `HTTPException(404, "Session not found")`. -/
def configureAgents : Handler :=
  ⟨[⟨"session_id", Ann.plain⟩, ⟨"config", Ann.model agentConfigSchema⟩],
    fun _ => Except.error ⟨404, "Session not found"⟩⟩

/-- Handler `get_report(session_id: str)` with the initial empty store. -/
def getReport : Handler :=
  ⟨[⟨"session_id", Ann.plain⟩], fun _ => Except.error ⟨404, "Session not found"⟩⟩

/-- The application of `main.py`: every `@app.get` / `@app.post`
registration, in source order (registration appends, so list order is
registration order). -/
def mainApp : App where
  getRoutes :=
    [⟨compilePath "/", readRoot⟩,
     ⟨compilePath "/report/\x7bsession_id\x7d", getReport⟩,
     ⟨compilePath "/extension/config", stubHandler []⟩,
     ⟨compilePath "/health", stubHandler []⟩]
  postRoutes :=
    [⟨compilePath "/upload-brief/", uploadBrief⟩,
     ⟨compilePath "/configure-agents/\x7bsession_id\x7d", configureAgents⟩,
     ⟨compilePath "/simulate/\x7bsession_id\x7d", stubHandler [⟨"session_id", Ann.plain⟩]⟩,
     ⟨compilePath "/rerun/\x7bsession_id\x7d", stubHandler [⟨"session_id", Ann.plain⟩]⟩,
     ⟨compilePath "/analyze-content/", stubHandler [⟨"request", Ann.model contentAnalysisRequestSchema⟩]⟩,
     ⟨compilePath "/extension/analyze-page", stubHandler [⟨"url", Ann.plain⟩]⟩,
     ⟨compilePath "/extension/analyze-text", stubHandler [⟨"text", Ann.plain⟩]⟩,
     ⟨compilePath "/integrations/register", stubHandler [⟨"config", Ann.model integrationConfigSchema⟩]⟩,
     ⟨compilePath "/advanced-analysis/", stubHandler [⟨"request", Ann.model contentAnalysisRequestSchema⟩]⟩]

/-! ## Concrete request data used in the examples -/

/-- The spec's example brief payload:
`{"product_name": "Widget", "features": [{"title": "Fast", "description": "very fast"}]}`. -/
def briefRaw : List (String × Value) :=
  [("product_name", Value.vstr "Widget"),
   ("features", Value.vlist
     [Value.vmap [("title", Value.vstr "Fast"), ("description", Value.vstr "very fast")]])]

/-- A configure-agents body that also smuggles a `session_id` key. -/
def agentConfigRaw : List (String × Value) :=
  [("session_id", Value.vstr "from-body"),
   ("customer_percentage", Value.vint 25), ("competitor_percentage", Value.vint 25),
   ("influencer_percentage", Value.vint 25), ("internal_team_percentage", Value.vint 25)]

/-- The spec's overlapping-route example: a static route and a
parametric route for the same verb, the static one registered first. -/
def itemsStaticRoute : RouteEntry :=
  ⟨compilePath "/items/special", stubHandler []⟩

/-- The parametric member of the overlapping-route example. -/
def itemsParamRoute : RouteEntry :=
  ⟨compilePath "/items/\x7bid\x7d", stubHandler [⟨"id", Ann.plain⟩]⟩

/-- The keyword arguments `_call` builds for `configure_agents` when
dispatching `/configure-agents/abc123` with `agentConfigRaw` as body:
the path capture wins for `session_id`, and `config` is constructed
from the payload (whose stray `session_id` key is outside
`AgentConfig`'s schema and dropped). -/
def cfgKwargs : List (String × Value) :=
  [("session_id", Value.vstr "abc123"),
   ("config", Value.vinst
     [("customer_percentage", Value.vint 25), ("competitor_percentage", Value.vint 25),
      ("influencer_percentage", Value.vint 25), ("internal_team_percentage", Value.vint 25)])]

/-! ## Auxiliary definitions for stating the routing properties -/

/-- The claim's reading of template normalization ("strips one trailing
separator"): remove at most one trailing `/`.  The source's
`path.rstrip("/")` removes them all; this variant exists only to be
compared against the source's behaviour. -/
def stripOneTrailingSlash (l : List Char) : List Char :=
  match l.reverse with
  | '/' :: rest => rest.reverse
  | _ => l

/-- Compilation as the claim words it: one trailing separator stripped,
then the same placeholder compilation. -/
def compilePathOneStrip (tpl : String) : List Token :=
  tokenize (stripOneTrailingSlash tpl.data)

/-- Substitute concrete text for each placeholder of a compiled
pattern: literals render as themselves, a placeholder `n` as `σ n`. -/
def renderToks (σ : String → List Char) : List Token → List Char
  | [] => []
  | Token.lit c :: ts => c :: renderToks σ ts
  | Token.param n :: ts => σ n ++ renderToks σ ts

/-- The captures the claim expects for a substituted path: each
placeholder bound to its substituted text, in template order. -/
def capsToks (σ : String → List Char) : List Token → List (String × String)
  | [] => []
  | Token.lit _ :: ts => capsToks σ ts
  | Token.param n :: ts => (n, String.mk (σ n)) :: capsToks σ ts

/-- Placeholder names of a compiled pattern, in template order. -/
def paramNames : List Token → List String
  | [] => []
  | Token.lit _ :: ts => paramNames ts
  | Token.param n :: ts => n :: paramNames ts

/-- Adjacency discipline for exact capture recovery: two adjacent
placeholders are ambiguous, and a placeholder adjacent to a non-`/`
literal is too, so a placeholder's neighbours must be `/` literals. -/
def pairOk : Token → Token → Bool
  | Token.param _, Token.param _ => false
  | Token.param _, Token.lit c => c = '/'
  | Token.lit c, Token.param _ => c = '/'
  | Token.lit _, Token.lit _ => true

/-- A compiled pattern is segment-delimited when every placeholder
occupies a whole path segment: each neighbour of a placeholder is a `/`
literal (or the pattern boundary). -/
def segOk : List Token → Bool
  | [] => true
  | [_] => true
  | a :: b :: rest => pairOk a b && segOk (b :: rest)

/-! ## Lemmas about the schema binder -/

theorem lookupKV_cons_ne {α : Type} (f k : String) (v : α) (m : List (String × α))
    (h : f ≠ k) : lookupKV ((f, v) :: m) k = lookupKV m k := by
  simp [lookupKV, h]

theorem mget_cons_self (f : String) (v : Value) (m : List (String × Value)) :
    mget ((f, v) :: m) f = v := by
  simp [mget, lookupKV]

theorem mget_cons_ne (g : String) (w : Value) (m : List (String × Value)) (f : String)
    (h : g ≠ f) : mget ((g, w) :: m) f = mget m f := by
  simp [mget, lookupKV, h]

theorem sizeOf_lookupKV (m : List (String × Value)) (k : String) (v : Value)
    (h : lookupKV m k = some v) : sizeOf v < sizeOf m := by
  induction m with
  | nil => simp [lookupKV] at h
  | cons p rest ih =>
    obtain ⟨f, w⟩ := p
    by_cases hf : f = k
    · simp only [lookupKV, if_pos hf, Option.some.injEq] at h
      subst h
      simp
      omega
    · simp only [lookupKV, if_neg hf] at h
      have := ih h
      simp
      omega

theorem sizeOf_mget_le (m : List (String × Value)) (k : String) :
    sizeOf (mget m k) ≤ sizeOf m := by
  unfold mget
  cases h : lookupKV m k with
  | none =>
    cases m with
    | nil => simp
    | cons p rest =>
      simp
      omega
  | some v => exact le_of_lt (sizeOf_lookupKV m k v h)

theorem construct_extra_key (s : Schema) (g : String) (w : Value) (m : List (String × Value))
    (h : g ∉ s.map Prod.fst) : construct s ((g, w) :: m) = construct s m := by
  induction s with
  | nil => rfl
  | cons p rest ih =>
    obtain ⟨f, t⟩ := p
    simp only [List.map_cons, List.mem_cons] at h
    push_neg at h
    simp only [construct]
    rw [mget_cons_ne g w m f h.1, ih h.2]

theorem dictElem_of_not_inst (x : Value) (h : isInst x = false) : dictElem x = x := by
  cases x <;> simp_all [isInst, dictElem]

theorem dictList_of_plain (xs : List Value) (h : ∀ x ∈ xs, isInst x = false) :
    dictList xs = xs := by
  induction xs with
  | nil => rfl
  | cons x rest ih =>
    simp only [dictList]
    rw [dictElem_of_not_inst x (h x (by simp)), ih (fun y hy => h y (by simp [hy]))]

theorem dictVal_of_plain (v : Value) (h : plainValue v = true) : dictVal v = v := by
  cases v with
  | vnone => rfl
  | vstr s => rfl
  | vint n => rfl
  | vmap m => rfl
  | vinst fs => simp [plainValue] at h
  | vlist xs =>
    simp only [plainValue, List.all_eq_true, Bool.not_eq_true'] at h
    simp only [dictVal]
    rw [dictList_of_plain xs h]

/-- Joint round-trip induction, by strong induction on the combined
size: a conforming raw mapping constructs successfully and serializes
back to itself, at the level of whole schemas, single fields, and
sequences of nested models. -/
theorem roundtripAux : ∀ n : Nat,
    (∀ s m, sizeOf s + sizeOf m ≤ n → conforms s m = true →
      ∃ fs, construct s m = some fs ∧ dictFields fs = m) ∧
    (∀ t v, sizeOf t + sizeOf v ≤ n → conformsField t v = true →
      ∃ w, constructField t v = some w ∧ dictVal w = v) ∧
    (∀ u xs, sizeOf u + sizeOf xs ≤ n → elemsConform (conforms u) xs = true →
      ∃ ws, constructElems (construct u) xs = some ws ∧ dictList ws = xs) := by
  intro n
  induction n using Nat.strong_induction_on with
  | _ n ih =>
    refine ⟨?_, ?_, ?_⟩
    · intro s m hsize hconf
      match s, m with
      | [], m =>
        have hm : m = [] := by simpa [conforms, List.isEmpty_iff] using hconf
        subst hm
        exact ⟨[], rfl, rfl⟩
      | (f, t) :: rest, [] => simp [conforms] at hconf
      | (f, t) :: rest, (g, v) :: m2 =>
        simp only [conforms, Bool.and_eq_true, beq_iff_eq, Bool.not_eq_true',
          decide_eq_false_iff_not] at hconf
        obtain ⟨⟨⟨hfg, hnot⟩, hcf⟩, hcm⟩ := hconf
        subst hfg
        have hsz1 : sizeOf t + sizeOf v < n := by
          simp at hsize
          omega
        have hsz2 : sizeOf rest + sizeOf m2 < n := by
          simp at hsize
          omega
        obtain ⟨w, hw, hdw⟩ := (ih _ hsz1).2.1 t v le_rfl hcf
        obtain ⟨fs, hfs, hdfs⟩ := (ih _ hsz2).1 rest m2 le_rfl hcm
        refine ⟨(f, w) :: fs, ?_, ?_⟩
        · simp only [construct]
          rw [mget_cons_self, hw, construct_extra_key rest f v m2 hnot, hfs]
        · simp only [dictFields]
          rw [hdw, hdfs]
    · intro t v hsize hcf
      match t, v with
      | t, Value.vnone => exact ⟨Value.vnone, by cases t <;> rfl, rfl⟩
      | FieldType.scalar, v =>
        have hp : plainValue v = true := by
          cases v <;> simp_all [conformsField, plainValue]
        exact ⟨v, by cases v <;> rfl, dictVal_of_plain v hp⟩
      | FieldType.nested u, Value.vmap m =>
        have hcm : conforms u m = true := by simpa [conformsField] using hcf
        have hsz : sizeOf u + sizeOf m < n := by
          simp at hsize
          omega
        obtain ⟨fs, hfs, hdfs⟩ := (ih _ hsz).1 u m le_rfl hcm
        refine ⟨Value.vinst fs, ?_, ?_⟩
        · simp only [constructField]
          rw [hfs]
          rfl
        · simp only [dictVal]
          rw [hdfs]
      | FieldType.nested u, Value.vstr s => simp [conformsField] at hcf
      | FieldType.nested u, Value.vint k => simp [conformsField] at hcf
      | FieldType.nested u, Value.vlist xs => simp [conformsField] at hcf
      | FieldType.nested u, Value.vinst fs => simp [conformsField] at hcf
      | FieldType.seqOf u, Value.vlist xs =>
        have hce : elemsConform (conforms u) xs = true := by simpa [conformsField] using hcf
        have hsz : sizeOf u + sizeOf xs < n := by
          simp at hsize
          omega
        obtain ⟨ws, hws, hdws⟩ := (ih _ hsz).2.2 u xs le_rfl hce
        refine ⟨Value.vlist ws, ?_, ?_⟩
        · simp only [constructField]
          rw [hws]
          rfl
        · simp only [dictVal]
          rw [hdws]
      | FieldType.seqOf u, Value.vstr s => simp [conformsField] at hcf
      | FieldType.seqOf u, Value.vint k => simp [conformsField] at hcf
      | FieldType.seqOf u, Value.vmap m => simp [conformsField] at hcf
      | FieldType.seqOf u, Value.vinst fs => simp [conformsField] at hcf
    · intro u xs hsize hce
      match xs with
      | [] => exact ⟨[], rfl, rfl⟩
      | Value.vmap m :: rest =>
        simp only [elemsConform, Bool.and_eq_true] at hce
        obtain ⟨hcm, hcr⟩ := hce
        have hsz1 : sizeOf u + sizeOf m < n := by
          simp at hsize
          omega
        have hsz2 : sizeOf u + sizeOf rest < n := by
          simp at hsize
          omega
        obtain ⟨fs, hfs, hdfs⟩ := (ih _ hsz1).1 u m le_rfl hcm
        obtain ⟨ws, hws, hdws⟩ := (ih _ hsz2).2.2 u rest le_rfl hcr
        refine ⟨Value.vinst fs :: ws, ?_, ?_⟩
        · simp only [constructElems]
          rw [hfs, hws]
        · simp only [dictList, dictElem]
          rw [hdfs, hdws]
      | Value.vnone :: rest => simp [elemsConform] at hce
      | Value.vstr s :: rest => simp [elemsConform] at hce
      | Value.vint k :: rest => simp [elemsConform] at hce
      | Value.vlist ys :: rest => simp [elemsConform] at hce
      | Value.vinst fs :: rest => simp [elemsConform] at hce

/-- Joint success characterization of `construct`, by strong induction
on the combined size: construction succeeds exactly on shape-compatible
input, at the level of whole schemas, single fields, and sequences. -/
theorem shapeAux : ∀ n : Nat,
    (∀ s m, sizeOf s + sizeOf m ≤ n → (construct s m).isSome = shapeOk s m) ∧
    (∀ t v, sizeOf t + sizeOf v ≤ n → (constructField t v).isSome = shapeOkField t v) ∧
    (∀ u xs, sizeOf u + sizeOf xs ≤ n →
      (constructElems (construct u) xs).isSome = elemsShapeOk (shapeOk u) xs) := by
  intro n
  induction n using Nat.strong_induction_on with
  | _ n ih =>
    refine ⟨?_, ?_, ?_⟩
    · intro s m hsize
      match s with
      | [] => rfl
      | (f, t) :: rest =>
        have hsz1 : sizeOf t + sizeOf (mget m f) < n := by
          have := sizeOf_mget_le m f
          simp at hsize
          omega
        have hsz2 : sizeOf rest + sizeOf m < n := by
          simp at hsize
          omega
        have h1 := (ih _ hsz1).2.1 t (mget m f) le_rfl
        have h2 := (ih _ hsz2).1 rest m le_rfl
        simp only [construct, shapeOk]
        cases hc1 : constructField t (mget m f) <;> cases hc2 : construct rest m <;>
          simp_all
    · intro t v hsize
      match t, v with
      | t, Value.vnone => cases t <;> rfl
      | FieldType.scalar, Value.vstr s => rfl
      | FieldType.scalar, Value.vint k => rfl
      | FieldType.scalar, Value.vlist xs => rfl
      | FieldType.scalar, Value.vmap m => rfl
      | FieldType.scalar, Value.vinst fs => rfl
      | FieldType.nested u, Value.vmap m =>
        have hsz : sizeOf u + sizeOf m < n := by
          simp at hsize
          omega
        have h1 := (ih _ hsz).1 u m le_rfl
        simp only [constructField, shapeOkField]
        cases hc : construct u m <;> simp_all
      | FieldType.nested u, Value.vstr s => rfl
      | FieldType.nested u, Value.vint k => rfl
      | FieldType.nested u, Value.vlist xs => rfl
      | FieldType.nested u, Value.vinst fs => rfl
      | FieldType.seqOf u, Value.vlist xs =>
        have hsz : sizeOf u + sizeOf xs < n := by
          simp at hsize
          omega
        have h1 := (ih _ hsz).2.2 u xs le_rfl
        simp only [constructField, shapeOkField]
        cases hc : constructElems (construct u) xs <;> simp_all
      | FieldType.seqOf u, Value.vstr s =>
        by_cases h : s.isEmpty <;> simp [constructField, shapeOkField, h]
      | FieldType.seqOf u, Value.vmap m =>
        by_cases h : m.isEmpty <;> simp [constructField, shapeOkField, h]
      | FieldType.seqOf u, Value.vint k => rfl
      | FieldType.seqOf u, Value.vinst fs => rfl
    · intro u xs hsize
      match xs with
      | [] => rfl
      | Value.vmap m :: rest =>
        have hsz1 : sizeOf u + sizeOf m < n := by
          simp at hsize
          omega
        have hsz2 : sizeOf u + sizeOf rest < n := by
          simp at hsize
          omega
        have h1 := (ih _ hsz1).1 u m le_rfl
        have h2 := (ih _ hsz2).2.2 u rest le_rfl
        simp only [constructElems, elemsShapeOk]
        cases hc1 : construct u m <;> cases hc2 : constructElems (construct u) rest <;>
          simp_all
      | Value.vnone :: rest => rfl
      | Value.vstr s :: rest => rfl
      | Value.vint k :: rest => rfl
      | Value.vlist ys :: rest => rfl
      | Value.vinst fs :: rest => rfl

/-- A field of the schema that is missing from the raw mapping is
stored as the absent marker `None`. -/
theorem construct_missing (s : Schema) :
    ∀ m fs f t, construct s m = some fs → (f, t) ∈ s → lookupKV m f = none →
      (f, Value.vnone) ∈ fs := by
  induction s with
  | nil => simp
  | cons p rest ih =>
    intro m fs f t hc hmem hlk
    obtain ⟨g, u⟩ := p
    simp only [construct] at hc
    cases hc1 : constructField u (mget m g) <;> rw [hc1] at hc
    · simp at hc
    cases hc2 : construct rest m <;> rw [hc2] at hc
    · simp at hc
    simp only [Option.some.injEq] at hc
    subst hc
    rcases List.mem_cons.mp hmem with heq | htail
    · have hg : g = f := by
        have := congrArg Prod.fst heq.symm
        simpa using this
      subst hg
      have hm : mget m g = Value.vnone := by
        simp [mget, hlk]
      rw [hm] at hc1
      have : constructField u Value.vnone = some Value.vnone := by cases u <;> rfl
      rw [this] at hc1
      simp only [Option.some.injEq] at hc1
      subst hc1
      exact List.mem_cons_self _ _
    · exact List.mem_cons_of_mem _ (ih m _ f t hc2 htail hlk)

/-- The constructed instance has exactly the schema's fields, in schema
order. -/
theorem construct_keys (s : Schema) :
    ∀ m fs, construct s m = some fs → fs.map Prod.fst = s.map Prod.fst := by
  induction s with
  | nil =>
    intro m fs hc
    simp only [construct, Option.some.injEq] at hc
    subst hc
    rfl
  | cons p rest ih =>
    intro m fs hc
    obtain ⟨g, u⟩ := p
    simp only [construct] at hc
    cases hc1 : constructField u (mget m g) <;> rw [hc1] at hc
    · simp at hc
    cases hc2 : construct rest m <;> rw [hc2] at hc
    · simp at hc
    simp only [Option.some.injEq] at hc
    subst hc
    simp [ih m _ hc2]

/-- Serialization keeps the field names and their order. -/
theorem dictFields_keys (fs : List (String × Value)) :
    (dictFields fs).map Prod.fst = fs.map Prod.fst := by
  induction fs with
  | nil => rfl
  | cons p rest ih =>
    obtain ⟨f, v⟩ := p
    simp only [dictFields, List.map_cons, ih]

/-- Membership transports through `dict()`. -/
theorem mem_dictFields (fs : List (String × Value)) (f : String) (v : Value)
    (h : (f, v) ∈ fs) : (f, dictVal v) ∈ dictFields fs := by
  induction fs with
  | nil => simp at h
  | cons p rest ih =>
    obtain ⟨g, w⟩ := p
    rcases List.mem_cons.mp h with heq | htail
    · rw [show f = g from by simpa using congrArg Prod.fst heq,
        show v = w from by simpa using congrArg Prod.snd heq]
      exact List.mem_cons_self _ _
    · exact List.mem_cons_of_mem _ (ih htail)

/-! ## Claim C1 — construct/serialize round trip -/

/-- C1: for every declared model type `T` and every raw mapping `m`
that already conforms to `T`'s shape (`conforms`), serialization
inverts construction — `serialize(construct(T, m)) == m` — and
consequently `construct(T, serialize(construct(T, m)))` has the same
field values as `construct(T, m)`. -/
theorem c1_construct_serialize_roundtrip (s : Schema) (m : List (String × Value))
    (h : conforms s m = true) :
    ∃ fs, construct s m = some fs ∧ dictFields fs = m ∧
      construct s (dictFields fs) = some fs := by
  obtain ⟨fs, h1, h2⟩ := (roundtripAux (sizeOf s + sizeOf m)).1 s m le_rfl h
  exact ⟨fs, h1, h2, by rw [h2, h1]⟩

/-- C1 witness: the spec's Brief example — a scalar field plus a
sequence-of-nested-model field — round trips. -/
theorem c1_roundtrip_witness :
    ∃ fs, construct briefSchema briefRaw = some fs ∧ dictFields fs = briefRaw ∧
      construct briefSchema (dictFields fs) = some fs :=
  c1_construct_serialize_roundtrip briefSchema briefRaw rfl

/-! ## Claim C8 — construct never rejects (corrected) -/

/-- C8 counterexample: `construct` does not succeed on *every* raw
mapping.  On `Brief`, a `features` value of `5` reaches
`[Feature.parse_obj(v) for v in 5]`, which raises `TypeError` (an
`int` is not iterable), so construction fails. -/
theorem c8_counterexample :
    construct briefSchema [("features", Value.vint 5)] = none := rfl

/-- C8 as amended: `construct(T, m)` succeeds precisely when every
present nested-model field value is a mapping and every present
sequence-of-model field value is a list of recursively shape-compatible
mappings (or an empty iterable); within that domain, fields missing
from `m` are left absent — stored as `None`, never defaulted or
rejected — and scalar fields undergo no validation at all (`shapeOk`
never inspects them). -/
theorem c8_amended_construct_totality :
    (∀ s m, (construct s m).isSome = shapeOk s m) ∧
    (∀ s m fs f t, construct s m = some fs → (f, t) ∈ s → lookupKV m f = none →
      (f, Value.vnone) ∈ fs) :=
  ⟨fun s m => (shapeAux (sizeOf s + sizeOf m)).1 s m le_rfl,
   fun s m fs f t hc hmem hlk => construct_missing s m fs f t hc hmem hlk⟩

/-- C8 witness: constructing a `Brief` from a mapping without
`features` succeeds and stores the absent marker for it. -/
theorem c8_amended_witness :
    ("features", Value.vnone) ∈
      [("product_name", Value.vstr "W"), ("features", Value.vnone)] :=
  c8_amended_construct_totality.2 briefSchema [("product_name", Value.vstr "W")]
    [("product_name", Value.vstr "W"), ("features", Value.vnone)]
    "features" (FieldType.seqOf featureSchema) rfl (by simp [briefSchema]) rfl

/-! ## Claim C10 — serialized key set is exactly the schema -/

/-- C10: the key set of `serialize(construct(T, m))` is exactly `T`'s
declared field names: the instance and its serialization list precisely
the schema's fields (in schema order); keys of `m` outside the schema
are ignored by `construct`; and a declared field missing from `m` is
still present, carried as the absent marker, in both the instance and
the serialized mapping. -/
theorem c10_serialized_key_set :
    (∀ s m fs, construct s m = some fs →
      fs.map Prod.fst = s.map Prod.fst ∧
      (dictFields fs).map Prod.fst = s.map Prod.fst) ∧
    (∀ s g w m, g ∉ s.map Prod.fst → construct s ((g, w) :: m) = construct s m) ∧
    (∀ s m fs f t, construct s m = some fs → (f, t) ∈ s → lookupKV m f = none →
      (f, Value.vnone) ∈ fs ∧ (f, Value.vnone) ∈ dictFields fs) := by
  refine ⟨?_, ?_, ?_⟩
  · intro s m fs hc
    have hk := construct_keys s m fs hc
    exact ⟨hk, by rw [dictFields_keys, hk]⟩
  · intro s g w m h
    exact construct_extra_key s g w m h
  · intro s m fs f t hc hmem hlk
    have h1 := construct_missing s m fs f t hc hmem hlk
    have h2 := mem_dictFields fs f Value.vnone h1
    rw [show dictVal Value.vnone = Value.vnone from rfl] at h2
    exact ⟨h1, h2⟩

/-- C10 witness: on `Brief`, an unknown `extra` key is dropped and the
missing `features` field appears as the absent marker. -/
theorem c10_key_set_witness :
    [("product_name", Value.vstr "W"), ("features", Value.vnone)].map Prod.fst
        = briefSchema.map Prod.fst ∧
    (dictFields [("product_name", Value.vstr "W"), ("features", Value.vnone)]).map Prod.fst
        = briefSchema.map Prod.fst :=
  c10_serialized_key_set.1 briefSchema
    [("product_name", Value.vstr "W"), ("extra", Value.vint 7)]
    [("product_name", Value.vstr "W"), ("features", Value.vnone)] rfl

/-! ## Lemmas about the router -/

theorem resolveRoutes_none (l : List RouteEntry) (p : List Char)
    (h : ∀ r ∈ l, mmatch r.pattern p = none) : resolveRoutes l p = none := by
  induction l with
  | nil => rfl
  | cons r rest ih =>
    simp only [resolveRoutes, h r (List.mem_cons_self r rest)]
    exact ih (fun r2 h2 => h r2 (List.mem_cons_of_mem _ h2))

theorem rstripSlashes_append_slash (l : List Char) :
    rstripSlashes (l ++ ['/']) = rstripSlashes l := by
  simp [rstripSlashes, List.dropWhile_cons]

/-! ## Claim C3 — first-match resolution in registration order -/

/-- C3: resolution scans a verb's route entries in registration order
and returns the first whose pattern matches the normalized path; in
particular, when several registered patterns match, the one registered
first wins, whatever comes after it. -/
theorem c3_first_match_wins (pre : List RouteEntry) (r : RouteEntry)
    (post : List RouteEntry) (p : List Char) (caps : List (String × String))
    (h1 : ∀ q ∈ pre, mmatch q.pattern p = none)
    (h2 : mmatch r.pattern p = some caps) :
    resolveRoutes (pre ++ r :: post) p = some (r, caps) := by
  induction pre with
  | nil => simp [resolveRoutes, h2]
  | cons q rest ih =>
    simp only [List.cons_append, resolveRoutes, h1 q (List.mem_cons_self q rest)]
    exact ih (fun q2 hq2 => h1 q2 (List.mem_cons_of_mem _ hq2))

/-- C3 witness: the spec's overlapping pair — static `/items/special`
registered before parametric `/items/{id}`; both match
`/items/special`, and the static (first-registered) one is returned. -/
theorem c3_first_match_witness :
    resolveRoutes [itemsStaticRoute, itemsParamRoute] ("/items/special".data)
      = some (itemsStaticRoute, []) :=
  c3_first_match_wins [] itemsStaticRoute [itemsParamRoute] ("/items/special".data) []
    (by simp) rfl

/-! ## Claim C5 — unmatched dispatch raises not-found -/

/-- C5: whenever no registered pattern for the verb matches the
normalized path — in particular for any verb other than GET and POST,
which have no entries at all — dispatch raises a structured error with
status 404 and a non-empty message. -/
theorem c5_unmatched_not_found :
    (∀ a method path json,
      (∀ r ∈ routesFor a method, mmatch r.pattern (rstripSlashes path.data) = none) →
      ∃ e, call a method path json = CallOutcome.herr e ∧ e.status = 404 ∧ e.detail ≠ "") ∧
    (∀ (a : App) (method path : String) (json : Option Value),
      method ≠ "GET" → method ≠ "POST" →
      ∃ e, call a method path json = CallOutcome.herr e ∧ e.status = 404 ∧ e.detail ≠ "") := by
  constructor
  · intro a method path json h
    refine ⟨⟨404, "Session not found"⟩, ?_, rfl, by decide⟩
    simp only [call, resolveRoutes_none _ _ h]
  · intro a method path json h1 h2
    refine ⟨⟨404, "Session not found"⟩, ?_, rfl, by decide⟩
    have hroutes : routesFor a method = [] := by simp [routesFor, h1, h2]
    simp only [call, hroutes, resolveRoutes]

/-- C5 witness: `dispatch(GET, "/does-not-exist", none)` on the
application of `main.py`. -/
theorem c5_not_found_witness :
    ∃ e, call mainApp "GET" "/does-not-exist" none = CallOutcome.herr e ∧
      e.status = 404 ∧ e.detail ≠ "" :=
  c5_unmatched_not_found.1 mainApp "GET" "/does-not-exist" none (by decide)

/-! ## Claim C7 — trailing-separator invariance -/

/-- C7: for every verb and path, dispatching the path with a trailing
separator and without one is identical — the same route entry and
captured parameters are resolved, and the whole call outcome is the
same — because `_call` normalizes the path with `rstrip("/")`. -/
theorem c7_trailing_separator_invariance (a : App) (method path : String)
    (json : Option Value) :
    resolveRoutes (routesFor a method) (rstripSlashes (path ++ "/").data)
        = resolveRoutes (routesFor a method) (rstripSlashes path.data) ∧
    call a method (path ++ "/") json = call a method path json := by
  have hd : (path ++ "/").data = path.data ++ ['/'] := String.data_append path "/"
  have hs : rstripSlashes (path ++ "/").data = rstripSlashes path.data := by
    rw [hd, rstripSlashes_append_slash]
  exact ⟨by rw [hs], by simp only [call, hs]⟩

/-! ## Lemmas about parameter binding -/

theorem bindParam_captured (caps : List (String × String)) (json : Option Value)
    (p : HParam) (s : String) (h : lookupKV caps p.name = some s) :
    bindParam caps json p = BindR.bound (Value.vstr s) := by
  simp [bindParam, h]

theorem buildKwargs_names (sig : List HParam) (caps : List (String × String))
    (json : Option Value) :
    ∀ kwargs, buildKwargs sig caps json = some kwargs →
      ∀ x v, (x, v) ∈ kwargs → x ∈ sig.map HParam.name := by
  induction sig with
  | nil =>
    intro kwargs hk x v hm
    simp only [buildKwargs, Option.some.injEq] at hk
    subst hk
    simp at hm
  | cons p rest ih =>
    intro kwargs hk x v hm
    simp only [buildKwargs] at hk
    cases hb : bindParam caps json p <;> rw [hb] at hk <;>
      cases hr : buildKwargs rest caps json <;> rw [hr] at hk <;>
        simp only [Option.some.injEq, reduceCtorEq] at hk
    · subst hk
      rcases List.mem_cons.mp hm with heq | htail
      · have hx : x = p.name := by simpa using congrArg Prod.fst heq
        simp [hx]
      · exact List.mem_cons_of_mem _ (ih _ hr x v htail)
    · subst hk
      exact List.mem_cons_of_mem _ (ih _ hr x v hm)

/-! ## Claim C2 — path parameters take precedence over the payload -/

/-- C2: when a dispatched path captures a path parameter named `n`,
every handler parameter named `n` is bound to the captured text — as a
string, verbatim — never to anything from the payload, whatever the
payload contains. -/
theorem c2_path_param_precedence (sig : List HParam) (caps : List (String × String))
    (json : Option Value) (n s : String) (kwargs : List (String × Value))
    (hc : lookupKV caps n = some s)
    (hk : buildKwargs sig caps json = some kwargs) :
    (∀ v, (n, v) ∈ kwargs → v = Value.vstr s) ∧
    ((∃ p ∈ sig, p.name = n) → (n, Value.vstr s) ∈ kwargs) := by
  induction sig generalizing kwargs with
  | nil =>
    simp only [buildKwargs, Option.some.injEq] at hk
    subst hk
    simp
  | cons p rest ih =>
    by_cases hn : p.name = n
    · have hlk : lookupKV caps p.name = some s := by
        rw [hn]
        exact hc
      have hb : bindParam caps json p = BindR.bound (Value.vstr s) :=
        bindParam_captured caps json p s hlk
      simp only [buildKwargs, hb] at hk
      cases hr : buildKwargs rest caps json <;> rw [hr] at hk <;>
        simp only [Option.some.injEq, reduceCtorEq] at hk
      rename_i kw
      subst hk
      obtain ⟨ih1, ih2⟩ := ih kw hr
      constructor
      · intro v hv
        rcases List.mem_cons.mp hv with heq | htail
        · simpa using congrArg Prod.snd heq
        · exact ih1 v htail
      · intro _
        rw [← hn]
        exact List.mem_cons_self _ _
    · cases hb : bindParam caps json p with
      | raises => simp [buildKwargs, hb] at hk
      | unbound =>
        cases hr : buildKwargs rest caps json <;>
          simp only [buildKwargs, hb, hr, Option.some.injEq, reduceCtorEq] at hk
        rename_i kw
        subst hk
        obtain ⟨ih1, ih2⟩ := ih kw hr
        refine ⟨ih1, ?_⟩
        rintro ⟨q, hq, hqn⟩
        rcases List.mem_cons.mp hq with heq | htail
        · exact absurd (heq ▸ hqn) hn
        · exact ih2 ⟨q, htail, hqn⟩
      | bound v =>
        cases hr : buildKwargs rest caps json <;>
          simp only [buildKwargs, hb, hr, Option.some.injEq, reduceCtorEq] at hk
        rename_i kw
        subst hk
        obtain ⟨ih1, ih2⟩ := ih kw hr
        constructor
        · intro w hw
          rcases List.mem_cons.mp hw with heq | htail
          · have hpn : n = p.name := by simpa using congrArg Prod.fst heq
            exact absurd hpn.symm hn
          · exact ih1 w htail
        · rintro ⟨q, hq, hqn⟩
          rcases List.mem_cons.mp hq with heq | htail
          · exact absurd (heq ▸ hqn) hn
          · exact List.mem_cons_of_mem _ (ih2 ⟨q, htail, hqn⟩)

/-- C2 witness: `POST /configure-agents/abc123` with a body that also
contains a `session_id` key — the handler's `session_id` argument is
the path capture `"abc123"`, never the body's value. -/
theorem c2_precedence_witness :
    (∀ v, ("session_id", v) ∈ cfgKwargs → v = Value.vstr "abc123") ∧
    ((∃ p ∈ configureAgents.sig, p.name = "session_id") →
      ("session_id", Value.vstr "abc123") ∈ cfgKwargs) :=
  c2_path_param_precedence configureAgents.sig [("session_id", "abc123")]
    (some (Value.vmap agentConfigRaw)) "session_id" "abc123" cfgKwargs rfl rfl

/-! ## Claim C6 — payload binding of non-model parameters (corrected) -/

/-- C6 counterexample: a handler parameter with *no* declared type is
not bound to the payload — the `elif` in `_call` requires a non-empty
annotation — so with a payload present the parameter stays unbound,
contradicting the claim that it is bound to the raw payload. -/
theorem c6_counterexample :
    buildKwargs [⟨"x", Ann.empty⟩] [] (some (Value.vmap [("k", Value.vint 1)])) = some [] ∧
    ∀ v, ("x", v) ∉ ([] : List (String × Value)) :=
  ⟨rfl, by simp⟩

/-- C6 as amended: for a dispatched request with a payload, a declared
handler parameter whose name matches no captured path parameter is
bound to the raw payload unchanged exactly when it carries a declared
non-model type; a parameter with no declared type is left unbound. -/
theorem c6_amended_payload_binding (sig : List HParam) (caps : List (String × String))
    (j : Value) (kwargs : List (String × Value)) (p : HParam)
    (hk : buildKwargs sig caps (some j) = some kwargs) (hp : p ∈ sig)
    (hc : lookupKV caps p.name = none) :
    (p.ann = Ann.plain → (p.name, j) ∈ kwargs) ∧
    (p.ann = Ann.empty → (sig.map HParam.name).Nodup → ∀ v, (p.name, v) ∉ kwargs) := by
  induction sig generalizing kwargs with
  | nil => simp at hp
  | cons q rest ih =>
    rcases List.mem_cons.mp hp with heq | htail
    · subst heq
      constructor
      · intro hann
        have hb : bindParam caps (some j) p = BindR.bound j := by
          simp [bindParam, hc, hann]
        simp only [buildKwargs, hb] at hk
        cases hr : buildKwargs rest caps (some j) <;> rw [hr] at hk <;>
          simp only [Option.some.injEq, reduceCtorEq] at hk
        subst hk
        exact List.mem_cons_self _ _
      · intro hann hnodup v hv
        have hb : bindParam caps (some j) p = BindR.unbound := by
          simp [bindParam, hc, hann]
        simp only [buildKwargs, hb] at hk
        cases hr : buildKwargs rest caps (some j) <;> rw [hr] at hk <;>
          simp only [Option.some.injEq, reduceCtorEq] at hk
        subst hk
        have hmem := buildKwargs_names rest caps (some j) _ hr p.name v hv
        simp only [List.map_cons, List.nodup_cons] at hnodup
        exact hnodup.1 hmem
    · cases hb : bindParam caps (some j) q with
      | raises => simp [buildKwargs, hb] at hk
      | unbound =>
        cases hr : buildKwargs rest caps (some j) <;>
          simp only [buildKwargs, hb, hr, Option.some.injEq, reduceCtorEq] at hk
        rename_i kw
        subst hk
        obtain ⟨ih1, ih2⟩ := ih kw hr htail
        refine ⟨ih1, fun hann hnodup => ih2 hann ?_⟩
        simp only [List.map_cons, List.nodup_cons] at hnodup
        exact hnodup.2
      | bound w =>
        cases hr : buildKwargs rest caps (some j) <;>
          simp only [buildKwargs, hb, hr, Option.some.injEq, reduceCtorEq] at hk
        rename_i kw
        subst hk
        obtain ⟨ih1, ih2⟩ := ih kw hr htail
        constructor
        · intro hann
          exact List.mem_cons_of_mem _ (ih1 hann)
        · intro hann hnodup v hv
          simp only [List.map_cons, List.nodup_cons] at hnodup
          rcases List.mem_cons.mp hv with heq2 | htail2
          · have : p.name = q.name := by simpa using congrArg Prod.fst heq2
            exact hnodup.1 (this ▸ List.mem_map_of_mem HParam.name htail)
          · exact ih2 hann hnodup.2 v htail2

/-- C6 witness: `analyze_page(url: str)` — a non-model annotated
parameter with no matching capture is bound to the raw payload. -/
theorem c6_amended_witness :
    (Ann.plain = Ann.plain →
      ("url", Value.vstr "https://x.example") ∈ [("url", Value.vstr "https://x.example")]) ∧
    (Ann.plain = Ann.empty →
      (([⟨"url", Ann.plain⟩] : List HParam).map HParam.name).Nodup →
      ∀ v, ("url", v) ∉ [("url", Value.vstr "https://x.example")]) :=
  c6_amended_payload_binding [⟨"url", Ann.plain⟩] [] (Value.vstr "https://x.example")
    [("url", Value.vstr "https://x.example")] ⟨"url", Ann.plain⟩ rfl (by simp) rfl

/-! ## Lemmas about the path pattern matcher -/

theorem takeWhile_append_all (p : Char → Bool) (a b : List Char)
    (h : ∀ c ∈ a, p c = true) : (a ++ b).takeWhile p = a ++ b.takeWhile p := by
  induction a with
  | nil => simp
  | cons c rest ih =>
    simp only [List.cons_append, List.takeWhile_cons, h c (List.mem_cons_self c rest),
      if_true]
    rw [ih (fun d hd => h d (List.mem_cons_of_mem _ hd))]

/-- Exact capture recovery over segment-delimited patterns: matching
the rendering of a pattern under a substitution with non-empty,
separator-free values recovers exactly the substituted values, in
template order.  The greedy capture takes the whole value on the first
attempt because the value's run of non-separator characters ends right
where the next token (a `/` literal, or the end) begins. -/
theorem mmatch_render (σ : String → List Char)
    (hne : ∀ nm, (σ nm).isEmpty = false)
    (hsl : ∀ nm, (σ nm).all (fun c => c != '/') = true) :
    ∀ ts, segOk ts = true → mmatch ts (renderToks σ ts) = some (capsToks σ ts) := by
  intro ts
  induction ts with
  | nil => intro _; rfl
  | cons tok rest ih =>
    intro hseg
    have hrest : segOk rest = true := by
      cases rest with
      | nil => rfl
      | cons b r2 =>
        simp only [segOk, Bool.and_eq_true] at hseg
        exact hseg.2
    cases tok with
    | lit c =>
      simp only [renderToks, capsToks, mmatch, if_pos rfl]
      exact ih hrest
    | param nm =>
      have hhead : renderToks σ rest = [] ∨ ∃ r2, renderToks σ rest = '/' :: r2 := by
        cases rest with
        | nil => exact Or.inl rfl
        | cons b r2 =>
          cases b with
          | lit c =>
            have hc : c = '/' := by
              simp only [segOk, pairOk, Bool.and_eq_true, decide_eq_true_eq] at hseg
              exact hseg.1
            exact Or.inr ⟨renderToks σ r2, by simp [renderToks, hc]⟩
          | param nm2 => simp [segOk, pairOk] at hseg
      have hslm : ∀ c ∈ σ nm, (c != '/') = true := List.all_eq_true.mp (hsl nm)
      have htw : ((σ nm ++ renderToks σ rest).takeWhile (fun c => c != '/')).length
          = (σ nm).length := by
        rw [takeWhile_append_all _ _ _ hslm]
        rcases hhead with h0 | ⟨r2, h2⟩
        · simp [h0]
        · simp [h2, List.takeWhile_cons]
      obtain ⟨k, hk⟩ : ∃ k, (σ nm).length = k + 1 := by
        cases hcs : σ nm with
        | nil =>
          have hne2 := hne nm
          rw [hcs] at hne2
          simp at hne2
        | cons d ds => exact ⟨ds.length, by simp [hcs]⟩
      have hdrop : (σ nm ++ renderToks σ rest).drop (k + 1) = renderToks σ rest := by
        rw [← hk]
        exact List.drop_left _ _
      have htake : (σ nm ++ renderToks σ rest).take (k + 1) = σ nm := by
        rw [← hk]
        exact List.take_left _ _
      simp only [renderToks, capsToks, mmatch, htw, hk, tryAll, hdrop, ih hrest, htake]

/-! ## Claim C4 — template compilation and capture extraction (corrected) -/

/-- C4 counterexample, refuting two parts of the claim at concrete
inputs.  First, placeholder extraction: for the template `/p/{a}{b}`
and the substitution `a := "x"`, `b := "yz"` (non-empty,
separator-free), the rendered path `/p/xyz` matches with captures
`a = "xy"`, `b = "z"` — the regex engine's greedy backtracking — not
the substituted strings, so matching does not recover arbitrary
substitutions for every template containing `{a}`,`{b}`.  Second,
normalization: `_compile_path` strips *all* trailing separators
(`rstrip("/")`), not one: compiling `/a//` yields a matcher accepting
`/a`, while the claim's one-separator-stripped variant of the same
template rejects it. -/
theorem c4_counterexample :
    mmatch (compilePath "/p/\x7ba\x7d\x7bb\x7d")
        (renderToks (fun nm => if nm = "a" then ['x'] else ['y', 'z'])
          (compilePath "/p/\x7ba\x7d\x7bb\x7d"))
      = some [("a", "xy"), ("b", "z")] ∧
    capsToks (fun nm => if nm = "a" then ['x'] else ['y', 'z'])
        (compilePath "/p/\x7ba\x7d\x7bb\x7d") = [("a", "x"), ("b", "yz")] ∧
    some [("a", "xy"), ("b", "z")] ≠ some [("a", "x"), ("b", "yz")] ∧
    mmatch (compilePath "/a//") ("/a".data) = some [] ∧
    mmatch (compilePathOneStrip "/a//") ("/a".data) = none :=
  ⟨rfl, rfl, by decide, rfl, rfl⟩

/-- C4 as amended: `compile(template)` strips *all* trailing separators
from the template (not one), replaces each `{name}` placeholder with a
capture matching one or more non-separator characters, and anchors the
matcher to the whole normalized path with an optional trailing
separator; for every template whose placeholders are
*segment-delimited* — each placeholder's neighbours are `/` literals or
the template boundary, as in every route of this repository — and
every substitution of non-empty separator-free strings, matching the
rendered path yields exactly the substituted strings as the captured
parameters, in template order.  (The extra `Nodup` hypothesis mirrors
`re.compile`, which rejects a duplicate group name at registration.) -/
theorem c4_amended_compile_extraction :
    (∀ tpl : String, compilePath (tpl ++ "/") = compilePath tpl) ∧
    (∀ (tpl : String) (σ : String → List Char),
      segOk (compilePath tpl) = true →
      (paramNames (compilePath tpl)).Nodup →
      (∀ nm, (σ nm).isEmpty = false) →
      (∀ nm, (σ nm).all (fun c => c != '/') = true) →
      mmatch (compilePath tpl) (renderToks σ (compilePath tpl))
        = some (capsToks σ (compilePath tpl))) := by
  constructor
  · intro tpl
    unfold compilePath
    rw [String.data_append, show ("/" : String).data = ['/'] from rfl,
      rstripSlashes_append_slash]
  · intro tpl σ hseg _ hne hsl
    exact mmatch_render σ hne hsl (compilePath tpl) hseg

/-- C4 witness: the `configure-agents` template with `session_id`
substituted by `"abc123"`. -/
theorem c4_amended_witness :
    mmatch (compilePath "/configure-agents/\x7bsession_id\x7d")
        (renderToks (fun _ => "abc123".data)
          (compilePath "/configure-agents/\x7bsession_id\x7d"))
      = some (capsToks (fun _ => "abc123".data)
          (compilePath "/configure-agents/\x7bsession_id\x7d")) :=
  c4_amended_compile_extraction.2 "/configure-agents/\x7bsession_id\x7d"
    (fun _ => "abc123".data) rfl (by decide) (fun _ => rfl) (fun _ => rfl)

/-! ## Claim C9 — structured errors become exact structured responses -/

/-- C9: whenever dispatch raises a structured error, the development
server responds with exactly that error's status code, with the body
`json.dumps({"detail": <message>})`, and with a `Content-Length` equal
to the byte length of that exact body. -/
theorem c9_error_response_shape (a : App) (method path : String)
    (payload : Option Value) (e : HTTPError)
    (h : call a method path payload = CallOutcome.herr e) :
    ∃ r, serverDispatch a method path payload = some r ∧
      r.status = e.status ∧
      some r.body = dumpVal (Value.vmap [("detail", Value.vstr e.detail)]) ∧
      r.contentLength = r.body.utf8ByteSize := by
  obtain ⟨body, hbody⟩ :
      ∃ b, dumpVal (Value.vmap [("detail", Value.vstr e.detail)]) = some b := ⟨_, rfl⟩
  refine ⟨⟨e.status, "application/json", body.utf8ByteSize, body⟩, ?_, rfl, ?_, rfl⟩
  · simp only [serverDispatch, h, serverRespond, hbody, Option.map_some']
  · rw [hbody]

/-- C9 witness: the not-found error for `GET /does-not-exist` on the
application of `main.py`. -/
theorem c9_error_response_witness :
    ∃ r, serverDispatch mainApp "GET" "/does-not-exist" none = some r ∧
      r.status = (404 : Nat) ∧
      some r.body = dumpVal (Value.vmap [("detail", Value.vstr "Session not found")]) ∧
      r.contentLength = r.body.utf8ByteSize :=
  c9_error_response_shape mainApp "GET" "/does-not-exist" none
    ⟨404, "Session not found"⟩ rfl

end Dejavas
